import Mathlib

set_option maxHeartbeats 1000000

/-!
A verification development for tarmac, a small content-addressed tar-archive
builder.  The program walks a source directory tree; for every file it hashes
the content (sha512, rendered with base64 URL encoding), stores the content
once per distinct hash under a reserved `.backing_store` path inside the
archive, and emits one hard-link record per file occurrence pointing at the
stored blob.  The definitions below are a shallow embedding of `tarmac.go`:
`addDir`, `addEntry` and `main` mirror the Go functions of the same names,
with filesystem and writer failures made explicit as error values attached to
the input tree and to a writer failure plan.
-/

/-- An error value as returned by fallible Go calls: an identity plus the
text produced by err.Error(). -/
structure Err where
  code : Nat
  msg : String
deriving DecidableEq, Repr

/-- The mode bits of os.FileInfo.Mode() that the program inspects: the
directory bit (os.ModeDir), the symbolic-link bit (os.ModeSymlink), and the
permission bits recorded into tar headers. -/
structure Mode where
  isDir : Bool
  isSymlink : Bool
  perm : Nat
deriving DecidableEq, Repr

/-- The os.FileInfo metadata the program reads: Name(), Mode(), Size() and
the modification time recorded by tar.FileInfoHeader. -/
structure FileInfo where
  name : String
  mode : Mode
  size : Nat
  modTime : Nat
deriving DecidableEq, Repr

/-- The failure behaviour of the fallible OS calls made on one entry:
os.OpenFile, (*os.File).Readdir, the io.Copy read into the hash,
(*os.File).Seek, and tar.FileInfoHeader.  A `some e` means the call fails
with error `e`; `none` means it succeeds. -/
structure ErrFlags where
  openErr : Option Err
  listErr : Option Err
  readErr : Option Err
  seekErr : Option Err
  headerErr : Option Err
deriving DecidableEq, Repr

/-- ErrFlags for an entry on which every OS call succeeds. -/
def noErr : ErrFlags :=
  { openErr := none, listErr := none, readErr := none, seekErr := none,
    headerErr := none }

/-- The tar type flags this program can produce (tar.TypeReg via
tar.FileInfoHeader on a file, tar.TypeLink set explicitly), plus
tar.TypeDir so that the absence of directory records is statable. -/
inductive TypeFlag where
  | reg
  | link
  | dir
deriving DecidableEq, Repr

/-- The fields of a tar.Header that the program sets or that the archive
format records: Name, Typeflag, Linkname, Size, permission bits, ModTime. -/
structure Header where
  name : String
  typeflag : TypeFlag
  linkname : String
  size : Nat
  mode : Nat
  modTime : Nat
deriving DecidableEq, Repr

/-- One unit written to the archive stream: a header (tar.Writer.WriteHeader)
or a record body (the io.Copy of file content into the archive). -/
inductive Record where
  | head (h : Header)
  | bytes (bs : List Nat)
deriving DecidableEq, Repr

/-- The mutable state owned by the run: the archive stream written so far
(in order), the dedup table (the key set of creationContext.mapping — the Go
map stores only `true`, so membership is the signal), and how many archive
writes have happened (used to locate writer failures). -/
structure ArchiveState where
  records : List Record
  mapping : List String
  writeCount : Nat
deriving DecidableEq, Repr

/-- The state at the start of a run: empty archive, empty dedup table. -/
def initState : ArchiveState :=
  { records := [], mapping := [], writeCount := 0 }

/-- The per-run environment: the archive name of the source root
(creationContext.rootArchivePath) and the failure plan of the output stream
(`writerPlan k = some e` makes the k-th archive write fail with `e`). -/
structure Env where
  rootArchivePath : String
  writerPlan : Nat → Option Err

/-- One write to the archive stream (tar.Writer.WriteHeader, or the io.Copy
of content into the archive).  On failure nothing is appended and the error
is returned; on success the record is appended. -/
def writeRecord (env : Env) (s : ArchiveState) (r : Record) :
    ArchiveState × Option Err :=
  match env.writerPlan s.writeCount with
  | some e => (s, some e)
  | none =>
      ({ s with records := s.records ++ [r], writeCount := s.writeCount + 1 },
       none)

/-- Models Go path.Join on two components as used by this program: the
components are clean relative names, so path.Join is joining with "/" and
dropping empty components. -/
def pjoin (a b : String) : String :=
  if a = "" then b else if b = "" then a else a ++ "/" ++ b

/-- The reserved backing-store directory name, the literal ".backing_store"
of tarmac.go. -/
def backingStoreName : String := ".backing_store"

/-- Models the digest computation of addEntry — sha512 over the file bytes,
rendered with base64.URLEncoding.EncodeToString — as an injective, nonempty
rendering of the content byte list.  The spec treats sha512 as collision-free
on the contents of one run, so the digest is modelled as depending on, and
distinguishing, exactly the content bytes. -/
def encodeBytes : List Nat → String
  | [] => ""
  | b :: bs => String.mk (List.replicate b 'x') ++ "." ++ encodeBytes bs

/-- The hash key of a file content (the Go local `hashKey`). -/
def hashKey (content : List Nat) : String :=
  "h" ++ encodeBytes content

/-- The stored-blob archive path of a hash key (the Go local
`backingFileArchivePath`): rootArchivePath / ".backing_store" / hashKey. -/
def backingFileArchivePath (env : Env) (key : String) : String :=
  pjoin (pjoin env.rootArchivePath backingStoreName) key

/-- Models tar.FileInfoHeader(fi, ""): a regular-file header carrying the
entry's own name, size, permissions and modification time. -/
def fileInfoHeader (fi : FileInfo) : Header :=
  { name := fi.name, typeflag := .reg, linkname := "", size := fi.size,
    mode := fi.mode.perm, modTime := fi.modTime }

/-- The header of a stored-blob record: tar.FileInfoHeader with Name
overridden to the stored-blob path (tarmac.go line 75). -/
def blobHeaderOf (env : Env) (fi : FileInfo) (key : String) : Header :=
  { fileInfoHeader fi with name := backingFileArchivePath env key }

/-- The header of a link record: tar.FileInfoHeader with Name set to the
logical archive path, Typeflag set to tar.TypeLink, Linkname set to the
stored-blob path and Size forced to 0 (tarmac.go lines 96-99). -/
def linkHeaderOf (env : Env) (fi : FileInfo) (archivePath key : String) :
    Header :=
  { fileInfoHeader fi with
    name := archivePath
    typeflag := .link
    linkname := backingFileArchivePath env key
    size := 0 }

mutual
/-- A filesystem entry as os.FileInfo presents it: metadata, the failure
behaviour of the OS calls on it, the content bytes behind it (what io.Copy
from the opened handle yields, when it succeeds), and its children (what
Readdir yields, when it succeeds). -/
inductive FNode where
  | mk (info : FileInfo) (errs : ErrFlags) (content : List Nat)
      (children : FForest)
/-- The ordered entry list of a directory (the Readdir result). -/
inductive FForest where
  | nil
  | cons (hd : FNode) (tl : FForest)
end

/-- The metadata of an entry. -/
def FNode.info : FNode → FileInfo
  | .mk i _ _ _ => i

/-- The failure behaviour of an entry. -/
def FNode.errs : FNode → ErrFlags
  | .mk _ e _ _ => e

/-- The content bytes of an entry. -/
def FNode.content : FNode → List Nat
  | .mk _ _ c _ => c

/-- The children of an entry. -/
def FNode.children : FNode → FForest
  | .mk _ _ _ cs => cs

/-- The file branch of creationContext.addEntry (tarmac.go lines 53-101):
hash the content, compute the stored-blob path, write blob header and body on
a dedup miss and mark the key stored, then always write the hard-link record
for the logical archive path. -/
def addFile (env : Env) (s : ArchiveState) (archivePath : String)
    (fi : FileInfo) (errs : ErrFlags) (content : List Nat) :
    ArchiveState × Option Err :=
  match errs.readErr with
  | some e => (s, some e)
  | none =>
    let key := hashKey content
    let afterBlob : ArchiveState × Option Err :=
      if s.mapping.contains key then (s, none)
      else
        match errs.seekErr with
        | some e => (s, some e)
        | none =>
          match errs.headerErr with
          | some e => (s, some e)
          | none =>
            match writeRecord env s (.head (blobHeaderOf env fi key)) with
            | (s1, some e) => (s1, some e)
            | (s1, none) =>
              match writeRecord env s1 (.bytes content) with
              | (s2, some e) => (s2, some e)
              | (s2, none) => ({ s2 with mapping := key :: s2.mapping }, none)
    match afterBlob with
    | (s3, some e) => (s3, some e)
    | (s3, none) =>
      match errs.headerErr with
      | some e => (s3, some e)
      | none =>
        writeRecord env s3 (.head (linkHeaderOf env fi archivePath key))

mutual
/-- Models creationContext.addEntry (tarmac.go lines 42-102): open the entry;
if its mode has the directory bit and not the symbolic-link bit, delegate to
the directory walk (Readdir plus the entry loop, isRoot false); otherwise run
the file branch. -/
def addEntry (env : Env) (s : ArchiveState) (entryPath archivePath : String)
    (n : FNode) : ArchiveState × Option Err :=
  match n with
  | .mk info errs content children =>
    match errs.openErr with
    | some e => (s, some e)
    | none =>
      if info.mode.isDir && !info.mode.isSymlink then
        match errs.listErr with
        | some e => (s, some e)
        | none => addList env s entryPath archivePath false children
      else
        addFile env s archivePath info errs content
/-- The entry loop of creationContext.addDir (tarmac.go lines 28-37): for
each child, skip it when isRoot holds and its name is the reserved
backing-store name, otherwise dispatch it to addEntry with the joined
filesystem and archive paths, stopping at the first error. -/
def addList (env : Env) (s : ArchiveState) (dirPath archivePath : String)
    (isRoot : Bool) (cs : FForest) : ArchiveState × Option Err :=
  match cs with
  | .nil => (s, none)
  | .cons c cs =>
    if isRoot && c.info.name == backingStoreName then
      addList env s dirPath archivePath isRoot cs
    else
      match addEntry env s (pjoin dirPath c.info.name)
          (pjoin archivePath c.info.name) c with
      | (s', some e) => (s', some e)
      | (s', none) => addList env s' dirPath archivePath isRoot cs
end

/-- Models creationContext.addDir (tarmac.go lines 22-40): Readdir on the
open directory, then the entry loop over its result. -/
def addDir (env : Env) (s : ArchiveState) (dirPath archivePath : String)
    (n : FNode) (isRoot : Bool) : ArchiveState × Option Err :=
  match n.errs.listErr with
  | some e => (s, some e)
  | none => addList env s dirPath archivePath isRoot n.children

/-- The message main prints to the error stream for an error `e`
(fmt.Fprintf(os.Stderr, "Error: %s\n", err.Error())). -/
def errorMessage (e : Err) : String := "Error: " ++ e.msg

/-- The usage line flag.Usage prints (modulo the program basename taken from
os.Args[0], which is fixed here to the program's own name). -/
def usageMessage : String := "usage: tarmac [OPTIONS] [FILE]"

/-- The inputs that determine one invocation of main: the positional
argument count (flag.NArg()), the -compress flag, the failure behaviour of
filepath.Abs on the argument, the basename and full path of the resolved
root, the root directory entry itself (its openErr is the os.OpenFile in
main, its listErr the Readdir in addDir), the output-stream failure plan,
and the failure behaviour of tar.Writer.Close and of the output Close. -/
structure MainInput where
  nargs : Nat
  shouldCompress : Bool
  absErr : Option Err
  rootName : String
  rootPath : String
  root : FNode
  writerPlan : Nat → Option Err
  closeErr : Option Err
  outputCloseErr : Option Err

/-- The observable outcome of main: the process exit code (0 when main
returns normally; os.Exit's argument otherwise), the messages printed to the
error stream, and the archive records written to standard output. -/
structure MainOutput where
  exitCode : Int
  errStream : List String
  records : List Record
deriving DecidableEq, Repr

/-- Models main (tarmac.go lines 104-156): argument-count check (usage plus
exit 2 on mismatch), filepath.Abs, os.OpenFile on the root, the creation
context with the root basename, addDir on the root with isRoot true, then
archive Close and output Close; every internal failure prints the error and
exits with -1. -/
def mainRun (inp : MainInput) : MainOutput :=
  if inp.nargs ≠ 1 then
    { exitCode := 2, errStream := [usageMessage], records := [] }
  else
    match inp.absErr with
    | some e => { exitCode := -1, errStream := [errorMessage e], records := [] }
    | none =>
      match inp.root.errs.openErr with
      | some e =>
          { exitCode := -1, errStream := [errorMessage e], records := [] }
      | none =>
        let env : Env :=
          { rootArchivePath := inp.rootName, writerPlan := inp.writerPlan }
        match addDir env initState inp.rootPath inp.rootName inp.root true with
        | (s, some e) =>
            { exitCode := -1, errStream := [errorMessage e],
              records := s.records }
        | (s, none) =>
          match inp.closeErr with
          | some e =>
              { exitCode := -1, errStream := [errorMessage e],
                records := s.records }
          | none =>
            match inp.outputCloseErr with
            | some e =>
                { exitCode := -1, errStream := [errorMessage e],
                  records := s.records }
            | none => { exitCode := 0, errStream := [], records := s.records }

mutual
/-- The contents of the file entries a successful addEntry on this node
processes, in traversal order: a node routed to the file branch contributes
its own content; a directory contributes its children's, with no root-level
skipping. -/
def entryContents : FNode → List (List Nat)
  | .mk info _ content children =>
    if info.mode.isDir && !info.mode.isSymlink then forestContents false children
    else [content]
/-- The contents of the file entries a successful addList over this forest
processes, in traversal order, honouring the root-level backing-store skip
when isRoot holds. -/
def forestContents (isRoot : Bool) : FForest → List (List Nat)
  | .nil => []
  | .cons c cs =>
    if isRoot && c.info.name == backingStoreName then forestContents isRoot cs
    else entryContents c ++ forestContents isRoot cs
end

mutual
/-- Every error value planted in the OS-call failure flags of this entry or
of anything below it. -/
def entryErrs : FNode → List Err
  | .mk _ errs _ children =>
    errs.openErr.toList ++ errs.listErr.toList ++ errs.readErr.toList ++
      errs.seekErr.toList ++ errs.headerErr.toList ++ forestErrs children
/-- Every error value planted in this forest. -/
def forestErrs : FForest → List Err
  | .nil => []
  | .cons c cs => entryErrs c ++ forestErrs cs
end

/-- Whether a record is a stored-blob header for hash key `key`: a header of
regular-file type named with the stored-blob path of `key`. -/
def isBlobFor (env : Env) (key : String) : Record → Bool
  | .head h => h.typeflag == .reg && h.name == backingFileArchivePath env key
  | .bytes _ => false

/-- Whether a record is a link header resolving to the stored-blob path of
hash key `key`. -/
def isLinkTo (env : Env) (key : String) : Record → Bool
  | .head h => h.typeflag == .link && h.linkname == backingFileArchivePath env key
  | .bytes _ => false

/-- Whether a record is a directory header. -/
def isDirRecord : Record → Bool
  | .head h => h.typeflag == .dir
  | .bytes _ => false

/-- How many stored-blob records for hash key `key` a record list holds. -/
def countBlob (env : Env) (recs : List Record) (key : String) : Nat :=
  (recs.filter (isBlobFor env key)).length

/-- How many link records resolving to hash key `key`'s stored-blob path a
record list holds. -/
def countLink (env : Env) (recs : List Record) (key : String) : Nat :=
  (recs.filter (isLinkTo env key)).length

/-- How many directory records a record list holds. -/
def countDir (recs : List Record) : Nat :=
  (recs.filter isDirRecord).length

/-- The link-target sequence of a record list: the Linkname of every link
header, in stream order. -/
def linkTargets (recs : List Record) : List String :=
  recs.filterMap fun r =>
    match r with
    | .head h => if h.typeflag == .link then some h.linkname else none
    | .bytes _ => none

/-- The observable effect of successfully processing the sequence `cs` of
file contents, relating the state before to the state after: records only
grow; the dedup table gains exactly the hash keys of `cs`; for every hash
key, a stored-blob record is added exactly when the key is new to this
segment and not yet stored; one link record is added per occurrence of the
key; and the link-target sequence extends by the stored-blob paths of `cs`
in order. -/
def runSpec (env : Env) (s s' : ArchiveState) (cs : List (List Nat)) : Prop :=
  (∃ d, s'.records = s.records ++ d) ∧
  (∀ k, k ∈ s'.mapping ↔ (k ∈ s.mapping ∨ k ∈ cs.map hashKey)) ∧
  (∀ k, countBlob env s'.records k =
      countBlob env s.records k +
        (if k ∈ s.mapping then 0 else if k ∈ cs.map hashKey then 1 else 0)) ∧
  (∀ k, countLink env s'.records k =
      countLink env s.records k + (cs.map hashKey).count k) ∧
  linkTargets s'.records =
    linkTargets s.records ++
      cs.map (fun c => backingFileArchivePath env (hashKey c))

/-- The entries of a directory listing whose name is not the reserved
backing-store name: what the root-level skip of addDir leaves to process. -/
def dropBacking : FForest → FForest
  | .nil => .nil
  | .cons c cs =>
    if c.info.name == backingStoreName then dropBacking cs
    else .cons c (dropBacking cs)

/-- First-occurrence ordering of the stream: in every prefix of the record
list, a link record resolving to a hash key appears only after the
stored-blob record of that key — the blob is written before any of its
links, i.e. at the first occurrence of its content. -/
def blobBeforeLinks (env : Env) (recs : List Record) : Prop :=
  ∀ k n, 1 ≤ countLink env (recs.take n) k → 1 ≤ countBlob env (recs.take n) k

/-- Every hash key recorded in the dedup table has its stored-blob record in
the stream already. -/
def mappingHasBlob (env : Env) (s : ArchiveState) : Prop :=
  ∀ k, k ∈ s.mapping → 1 ≤ countBlob env s.records k

/-- A concrete failure-free environment used to exercise the theorems on
closed runs. -/
def envW : Env := { rootArchivePath := "root", writerPlan := fun _ => none }

/-- Concrete regular-file metadata used to exercise the theorems. -/
def infoW (nm : String) (sz : Nat) : FileInfo :=
  { name := nm, mode := { isDir := false, isSymlink := false, perm := 420 },
    size := sz, modTime := 0 }

/-- A concrete error-free regular file entry. -/
def fileW (nm : String) (c : List Nat) : FNode :=
  .mk (infoW nm c.length) noErr c .nil

/-- A concrete error-free directory entry. -/
def dirW (nm : String) (cs : FForest) : FNode :=
  .mk { name := nm
        mode := { isDir := true, isSymlink := false, perm := 493 }
        size := 0
        modTime := 0 } noErr [] cs

/-- A concrete error value used to exercise the failure paths. -/
def errW : Err := { code := 7, msg := "input output error" }

/-- ErrFlags for an entry whose os.OpenFile fails with errW. -/
def openErrW : ErrFlags :=
  { openErr := some errW
    listErr := none
    readErr := none
    seekErr := none
    headerErr := none }

/-- A concrete root directory whose open in main fails with errW. -/
def badRootW : FNode := .mk (infoW "root" 0) openErrW [] .nil

/-- A concrete failure-free invocation of main with k positional arguments,
used to exercise the exit-code theorem. -/
def inpW (k : Nat) : MainInput :=
  { nargs := k
    shouldCompress := false
    absErr := none
    rootName := "root"
    rootPath := "p"
    root := dirW "root" (.cons (fileW "a" [1]) .nil)
    writerPlan := fun _ => none
    closeErr := none
    outputCloseErr := none }

theorem string_data_inj {s t : String} (h : s.data = t.data) : s = t := by
  cases s
  cases t
  simp_all

theorem hashKey_ne_empty (c : List Nat) : hashKey c ≠ "" := by
  intro h
  have h2 := congrArg String.length h
  have h1 : ("h" : String).length = 1 := rfl
  have h0 : ("" : String).length = 0 := rfl
  rw [hashKey, String.length_append, h1, h0] at h2
  omega

theorem pjoin_ne_empty (a b : String) (hb : b ≠ "") : pjoin a b ≠ "" := by
  by_cases ha : a = ""
  · unfold pjoin
    rw [if_pos ha]
    exact hb
  · unfold pjoin
    rw [if_neg ha, if_neg hb]
    intro h
    have hlen := congrArg String.length h
    have h1 : ("/" : String).length = 1 := rfl
    have h0 : ("" : String).length = 0 := rfl
    rw [String.length_append, String.length_append, h1, h0] at hlen
    omega

theorem pjoin_right_inj (a j k : String) (ha : a ≠ "") (hj : j ≠ "") :
    pjoin a j = pjoin a k ↔ j = k := by
  constructor
  · intro h
    unfold pjoin at h
    rw [if_neg ha, if_neg hj, if_neg ha] at h
    by_cases hk : k = ""
    · rw [if_pos hk] at h
      have hlen := congrArg String.length h
      have h1 : ("/" : String).length = 1 := rfl
      rw [String.length_append, String.length_append, h1] at hlen
      omega
    · rw [if_neg hk] at h
      have hd := congrArg String.data h
      rw [String.data_append, String.data_append, String.data_append,
        String.data_append, List.append_assoc, List.append_assoc] at hd
      have hd2 := List.append_cancel_left hd
      have hd3 := List.append_cancel_left hd2
      exact string_data_inj hd3
  · intro h
    rw [h]

theorem backingFileArchivePath_inj (env : Env) (j k : String) (hj : j ≠ "") :
    backingFileArchivePath env j = backingFileArchivePath env k ↔ j = k := by
  unfold backingFileArchivePath
  exact pjoin_right_inj _ j k (pjoin_ne_empty _ _ (by decide)) hj

theorem writeRecord_ok (env : Env) (s : ArchiveState) (r : Record)
    (s' : ArchiveState) (h : writeRecord env s r = (s', none)) :
    s' = { s with records := s.records ++ [r], writeCount := s.writeCount + 1 } := by
  unfold writeRecord at h
  cases hp : env.writerPlan s.writeCount <;> rw [hp] at h <;> simp_all

theorem writeRecord_err (env : Env) (s : ArchiveState) (r : Record)
    (s' : ArchiveState) (e : Err) (h : writeRecord env s r = (s', some e)) :
    s' = s ∧ env.writerPlan s.writeCount = some e := by
  unfold writeRecord at h
  cases hp : env.writerPlan s.writeCount <;> rw [hp] at h <;> simp_all


theorem runSpec_nil (env : Env) (s : ArchiveState) : runSpec env s s [] := by
  refine ⟨⟨[], by simp⟩, ?_, ?_, ?_, ?_⟩ <;> simp

theorem runSpec_comp (env : Env) (s s₁ s' : ArchiveState)
    (xs ys : List (List Nat)) (h₁ : runSpec env s s₁ xs)
    (h₂ : runSpec env s₁ s' ys) : runSpec env s s' (xs ++ ys) := by
  obtain ⟨⟨d₁, hd₁⟩, hm₁, hb₁, hl₁, ht₁⟩ := h₁
  obtain ⟨⟨d₂, hd₂⟩, hm₂, hb₂, hl₂, ht₂⟩ := h₂
  refine ⟨⟨d₁ ++ d₂, by rw [hd₂, hd₁, List.append_assoc]⟩, ?_, ?_, ?_, ?_⟩
  · intro k
    rw [hm₂ k, hm₁ k]
    simp [List.mem_append, or_assoc]
  · intro k
    rw [hb₂ k, hb₁ k]
    simp only [hm₁ k]
    by_cases h0 : k ∈ s.mapping <;>
      by_cases hx : k ∈ xs.map hashKey <;>
      by_cases hy : k ∈ ys.map hashKey <;>
      simp [h0, hx, hy, List.map_append, List.mem_append]
  · intro k
    rw [hl₂ k, hl₁ k]
    simp [List.map_append, List.count_append, Nat.add_assoc]
  · rw [ht₂, ht₁]
    simp [List.append_assoc]

theorem countBlob_append (env : Env) (r₁ r₂ : List Record) (k : String) :
    countBlob env (r₁ ++ r₂) k = countBlob env r₁ k + countBlob env r₂ k := by
  simp [countBlob, List.filter_append]

theorem countLink_append (env : Env) (r₁ r₂ : List Record) (k : String) :
    countLink env (r₁ ++ r₂) k = countLink env r₁ k + countLink env r₂ k := by
  simp [countLink, List.filter_append]

theorem countDir_append (r₁ r₂ : List Record) :
    countDir (r₁ ++ r₂) = countDir r₁ + countDir r₂ := by
  simp [countDir, List.filter_append]

theorem linkTargets_append (r₁ r₂ : List Record) :
    linkTargets (r₁ ++ r₂) = linkTargets r₁ ++ linkTargets r₂ := by
  simp [linkTargets, List.filterMap_append]

theorem countBlob_blobHead (env : Env) (fi : FileInfo) (j k : String)
    (hj : j ≠ "") :
    countBlob env [.head (blobHeaderOf env fi j)] k = if j = k then 1 else 0 := by
  by_cases h : j = k
  · subst h
    simp [countBlob, isBlobFor, blobHeaderOf, fileInfoHeader]
  · have hne : backingFileArchivePath env j ≠ backingFileArchivePath env k :=
      fun hc => h ((backingFileArchivePath_inj env j k hj).mp hc)
    simp [countBlob, isBlobFor, blobHeaderOf, fileInfoHeader, hne, h]

theorem countBlob_linkHead (env : Env) (fi : FileInfo) (a j k : String) :
    countBlob env [.head (linkHeaderOf env fi a j)] k = 0 := by
  simp [countBlob, isBlobFor, linkHeaderOf, fileInfoHeader]

theorem countBlob_bytes (env : Env) (c : List Nat) (k : String) :
    countBlob env [.bytes c] k = 0 := by
  simp [countBlob, isBlobFor]

theorem countLink_linkHead (env : Env) (fi : FileInfo) (a j k : String)
    (hj : j ≠ "") :
    countLink env [.head (linkHeaderOf env fi a j)] k = if j = k then 1 else 0 := by
  by_cases h : j = k
  · subst h
    simp [countLink, isLinkTo, linkHeaderOf, fileInfoHeader]
  · have hne : backingFileArchivePath env j ≠ backingFileArchivePath env k :=
      fun hc => h ((backingFileArchivePath_inj env j k hj).mp hc)
    simp [countLink, isLinkTo, linkHeaderOf, fileInfoHeader, hne, h]

theorem countLink_blobHead (env : Env) (fi : FileInfo) (j k : String) :
    countLink env [.head (blobHeaderOf env fi j)] k = 0 := by
  simp [countLink, isLinkTo, blobHeaderOf, fileInfoHeader]

theorem countLink_bytes (env : Env) (c : List Nat) (k : String) :
    countLink env [.bytes c] k = 0 := by
  simp [countLink, isLinkTo]

theorem countDir_blobHead (env : Env) (fi : FileInfo) (j : String) :
    countDir [.head (blobHeaderOf env fi j)] = 0 := by
  simp [countDir, isDirRecord, blobHeaderOf, fileInfoHeader]

theorem countDir_linkHead (env : Env) (fi : FileInfo) (a j : String) :
    countDir [.head (linkHeaderOf env fi a j)] = 0 := by
  simp [countDir, isDirRecord, linkHeaderOf, fileInfoHeader]

theorem countDir_bytes (c : List Nat) : countDir [.bytes c] = 0 := by
  simp [countDir, isDirRecord]

theorem linkTargets_blobHead (env : Env) (fi : FileInfo) (j : String) :
    linkTargets [.head (blobHeaderOf env fi j)] = [] := by
  simp [linkTargets, blobHeaderOf, fileInfoHeader]

theorem linkTargets_linkHead (env : Env) (fi : FileInfo) (a j : String) :
    linkTargets [.head (linkHeaderOf env fi a j)] =
      [backingFileArchivePath env j] := by
  simp [linkTargets, linkHeaderOf, fileInfoHeader]

theorem linkTargets_bytes (c : List Nat) : linkTargets [.bytes c] = [] := by
  simp [linkTargets]

theorem addFile_ok (env : Env) (s : ArchiveState) (a : String) (fi : FileInfo)
    (errs : ErrFlags) (content : List Nat) (s' : ArchiveState)
    (h : addFile env s a fi errs content = (s', none)) :
    (hashKey content ∈ s.mapping ∧
      s'.records =
        s.records ++ [.head (linkHeaderOf env fi a (hashKey content))] ∧
      s'.mapping = s.mapping ∧ s'.writeCount = s.writeCount + 1) ∨
    (hashKey content ∉ s.mapping ∧
      s'.records = s.records ++
        [.head (blobHeaderOf env fi (hashKey content)), .bytes content,
          .head (linkHeaderOf env fi a (hashKey content))] ∧
      s'.mapping = hashKey content :: s.mapping ∧
      s'.writeCount = s.writeCount + 3) := by
  cases hre : errs.readErr with
  | some e => simp [addFile, hre] at h
  | none =>
  by_cases hc : hashKey content ∈ s.mapping
  · cases hh : errs.headerErr with
    | some e => simp [addFile, hre, hc, hh] at h
    | none =>
      cases hp0 : env.writerPlan s.writeCount with
      | some e => simp [addFile, writeRecord, hre, hc, hh, hp0] at h
      | none =>
        simp [addFile, writeRecord, hre, hc, hh, hp0] at h
        subst h
        exact Or.inl ⟨hc, by simp, by simp, by simp⟩
  · cases hsk : errs.seekErr with
    | some e => simp [addFile, hre, hc, hsk] at h
    | none =>
    cases hh : errs.headerErr with
    | some e => simp [addFile, hre, hc, hsk, hh] at h
    | none =>
    cases hp0 : env.writerPlan s.writeCount with
    | some e => simp [addFile, writeRecord, hre, hc, hsk, hh, hp0] at h
    | none =>
    cases hp1 : env.writerPlan (s.writeCount + 1) with
    | some e => simp [addFile, writeRecord, hre, hc, hsk, hh, hp0, hp1] at h
    | none =>
    cases hp2 : env.writerPlan (s.writeCount + 1 + 1) with
    | some e => simp [addFile, writeRecord, hre, hc, hsk, hh, hp0, hp1, hp2] at h
    | none =>
      simp [addFile, writeRecord, hre, hc, hsk, hh, hp0, hp1, hp2] at h
      subst h
      exact Or.inr ⟨hc, by simp, by simp, by simp⟩

theorem countBlob_three (env : Env) (fi : FileInfo) (a : String)
    (content : List Nat) (k : String) :
    countBlob env
      [.head (blobHeaderOf env fi (hashKey content)), .bytes content,
        .head (linkHeaderOf env fi a (hashKey content))] k =
      if hashKey content = k then 1 else 0 := by
  have e1 : ([.head (blobHeaderOf env fi (hashKey content)), .bytes content,
      .head (linkHeaderOf env fi a (hashKey content))] : List Record) =
      [.head (blobHeaderOf env fi (hashKey content))] ++ [.bytes content] ++
        [.head (linkHeaderOf env fi a (hashKey content))] := rfl
  rw [e1, countBlob_append, countBlob_append,
    countBlob_blobHead env fi _ k (hashKey_ne_empty content), countBlob_bytes,
    countBlob_linkHead]
  simp

theorem countLink_three (env : Env) (fi : FileInfo) (a : String)
    (content : List Nat) (k : String) :
    countLink env
      [.head (blobHeaderOf env fi (hashKey content)), .bytes content,
        .head (linkHeaderOf env fi a (hashKey content))] k =
      if hashKey content = k then 1 else 0 := by
  have e1 : ([.head (blobHeaderOf env fi (hashKey content)), .bytes content,
      .head (linkHeaderOf env fi a (hashKey content))] : List Record) =
      [.head (blobHeaderOf env fi (hashKey content))] ++ [.bytes content] ++
        [.head (linkHeaderOf env fi a (hashKey content))] := rfl
  rw [e1, countLink_append, countLink_append, countLink_blobHead,
    countLink_bytes, countLink_linkHead env fi a _ k (hashKey_ne_empty content)]
  simp

theorem linkTargets_three (env : Env) (fi : FileInfo) (a : String)
    (content : List Nat) :
    linkTargets
      [.head (blobHeaderOf env fi (hashKey content)), .bytes content,
        .head (linkHeaderOf env fi a (hashKey content))] =
      [backingFileArchivePath env (hashKey content)] := by
  have e1 : ([.head (blobHeaderOf env fi (hashKey content)), .bytes content,
      .head (linkHeaderOf env fi a (hashKey content))] : List Record) =
      [.head (blobHeaderOf env fi (hashKey content))] ++ [.bytes content] ++
        [.head (linkHeaderOf env fi a (hashKey content))] := rfl
  rw [e1, linkTargets_append, linkTargets_append, linkTargets_blobHead,
    linkTargets_bytes, linkTargets_linkHead]
  simp

theorem addFile_runSpec (env : Env) (s : ArchiveState) (a : String)
    (fi : FileInfo) (errs : ErrFlags) (content : List Nat) (s' : ArchiveState)
    (h : addFile env s a fi errs content = (s', none)) :
    runSpec env s s' [content] := by
  have hj := hashKey_ne_empty content
  rcases addFile_ok env s a fi errs content s' h with
    ⟨hm, hrec, hmap, _⟩ | ⟨hm, hrec, hmap, _⟩
  · refine ⟨⟨_, hrec⟩, ?_, ?_, ?_, ?_⟩
    · intro k
      rw [hmap]
      simp only [List.map_cons, List.map_nil, List.mem_singleton]
      constructor
      · exact Or.inl
      · rintro (hk | rfl)
        · exact hk
        · exact hm
    · intro k
      rw [hrec, countBlob_append, countBlob_linkHead]
      by_cases hk : k ∈ s.mapping
      · simp [hk]
      · have hne : ¬k = hashKey content := fun he => hk (he ▸ hm)
        simp [hk, hne]
    · intro k
      rw [hrec, countLink_append, countLink_linkHead env fi a _ k hj]
      simp [List.count_cons]
    · rw [hrec, linkTargets_append, linkTargets_linkHead]
      simp
  · refine ⟨⟨_, hrec⟩, ?_, ?_, ?_, ?_⟩
    · intro k
      rw [hmap]
      simp only [List.map_cons, List.map_nil, List.mem_cons,
        List.mem_singleton, List.not_mem_nil, or_false]
      tauto
    · intro k
      rw [hrec, countBlob_append, countBlob_three]
      by_cases hk : k ∈ s.mapping
      · have hne : ¬hashKey content = k := fun he => hm (he ▸ hk)
        simp [hk, hne]
      · by_cases he : hashKey content = k
        · simp [hk, he]
        · have hne : ¬k = hashKey content := fun h2 => he h2.symm
          simp [hk, he, hne]
    · intro k
      rw [hrec, countLink_append, countLink_three]
      simp [List.count_cons]
    · rw [hrec, linkTargets_append, linkTargets_three]
      simp

mutual
theorem addEntry_runSpec (env : Env) (s : ArchiveState) (p a : String)
    (n : FNode) (s' : ArchiveState) (h : addEntry env s p a n = (s', none)) :
    runSpec env s s' (entryContents n) := by
  cases n with
  | mk info errs content children =>
    cases ho : errs.openErr with
    | some e => simp [addEntry, ho] at h
    | none =>
      by_cases hd : (info.mode.isDir && !info.mode.isSymlink) = true
      · cases hl : errs.listErr with
        | some e => simp [addEntry, ho, hd, hl] at h
        | none =>
          have h2 : addList env s p a false children = (s', none) := by
            simpa [addEntry, ho, hd, hl] using h
          have hr := addList_runSpec env s p a false children s' h2
          simpa [entryContents, hd] using hr
      · have h2 : addFile env s a info errs content = (s', none) := by
          simpa [addEntry, ho, hd] using h
        have hr := addFile_runSpec env s a info errs content s' h2
        simpa [entryContents, hd] using hr

theorem addList_runSpec (env : Env) (s : ArchiveState) (p a : String)
    (b : Bool) (cs : FForest) (s' : ArchiveState)
    (h : addList env s p a b cs = (s', none)) :
    runSpec env s s' (forestContents b cs) := by
  cases cs with
  | nil =>
    simp [addList] at h
    subst h
    simpa [forestContents] using runSpec_nil env s
  | cons c cs =>
    by_cases hskip : (b && c.info.name == backingStoreName) = true
    · have h2 : addList env s p a b cs = (s', none) := by
        simpa [addList, hskip] using h
      have hr := addList_runSpec env s p a b cs s' h2
      simpa [forestContents, hskip] using hr
    · rcases he : addEntry env s (pjoin p c.info.name) (pjoin a c.info.name) c
        with ⟨s₁, e₁⟩
      cases e₁ with
      | some e => simp [addList, hskip, he] at h
      | none =>
        have h2 : addList env s₁ p a b cs = (s', none) := by
          simpa [addList, hskip, he] using h
        have r1 := addEntry_runSpec env s (pjoin p c.info.name)
          (pjoin a c.info.name) c s₁ he
        have r2 := addList_runSpec env s₁ p a b cs s' h2
        have hr := runSpec_comp env s s₁ s' (entryContents c)
          (forestContents b cs) r1 r2
        simpa [forestContents, hskip] using hr
end

theorem countDir_cons_head (h : Header) (rs : List Record)
    (hh : (h.typeflag == TypeFlag.dir) = false) :
    countDir (Record.head h :: rs) = countDir rs := by
  simp [countDir, isDirRecord, List.filter_cons, hh]

theorem addFile_frame (env : Env) (s : ArchiveState) (a : String)
    (fi : FileInfo) (errs : ErrFlags) (content : List Nat) (s' : ArchiveState)
    (r : Option Err) (h : addFile env s a fi errs content = (s', r)) :
    (∃ d, s'.records = s.records ++ d) ∧
    countDir s'.records = countDir s.records ∧
    (∀ e, r = some e →
      (e ∈ errs.readErr.toList ∨ e ∈ errs.seekErr.toList ∨
        e ∈ errs.headerErr.toList) ∨
      ∃ j, env.writerPlan j = some e) := by
  have hdir3 : countDir (s.records ++
      [.head (blobHeaderOf env fi (hashKey content)), .bytes content,
        .head (linkHeaderOf env fi a (hashKey content))]) =
      countDir s.records := by
    rw [countDir_append]
    simp [countDir, isDirRecord, blobHeaderOf, linkHeaderOf, fileInfoHeader]
  have hdir2 : countDir (s.records ++
      [.head (blobHeaderOf env fi (hashKey content)), .bytes content]) =
      countDir s.records := by
    rw [countDir_append]
    simp [countDir, isDirRecord, blobHeaderOf, fileInfoHeader]
  have hdir1b : countDir (s.records ++
      [.head (blobHeaderOf env fi (hashKey content))]) = countDir s.records := by
    rw [countDir_append]
    simp [countDir, isDirRecord, blobHeaderOf, fileInfoHeader]
  have hdir1l : countDir (s.records ++
      [.head (linkHeaderOf env fi a (hashKey content))]) = countDir s.records := by
    rw [countDir_append]
    simp [countDir, isDirRecord, linkHeaderOf, fileInfoHeader]
  cases hre : errs.readErr with
  | some e =>
    simp [addFile, hre] at h
    obtain ⟨h1, h2⟩ := h
    subst h1
    subst h2
    exact ⟨⟨[], by simp⟩, rfl, fun e2 he2 => by
      simp [hre] at he2
      subst he2
      exact Or.inl (Or.inl (by simp [hre]))⟩
  | none =>
  by_cases hc : hashKey content ∈ s.mapping
  · cases hh : errs.headerErr with
    | some e =>
      simp [addFile, hre, hc, hh] at h
      obtain ⟨h1, h2⟩ := h
      subst h1
      subst h2
      exact ⟨⟨[], by simp⟩, rfl, fun e2 he2 => by
        simp at he2
        subst he2
        exact Or.inl (Or.inr (Or.inr (by simp [hh])))⟩
    | none =>
      cases hp0 : env.writerPlan s.writeCount with
      | some e =>
        simp [addFile, writeRecord, hre, hc, hh, hp0] at h
        obtain ⟨h1, h2⟩ := h
        subst h1
        subst h2
        exact ⟨⟨[], by simp⟩, rfl, fun e2 he2 => by
          simp at he2
          subst he2
          exact Or.inr ⟨s.writeCount, hp0⟩⟩
      | none =>
        simp [addFile, writeRecord, hre, hc, hh, hp0] at h
        obtain ⟨h1, h2⟩ := h
        subst h1
        exact ⟨⟨_, rfl⟩, hdir1l, fun e2 he2 => by simp [← h2] at he2⟩
  · cases hsk : errs.seekErr with
    | some e =>
      simp [addFile, hre, hc, hsk] at h
      obtain ⟨h1, h2⟩ := h
      subst h1
      subst h2
      exact ⟨⟨[], by simp⟩, rfl, fun e2 he2 => by
        simp at he2
        subst he2
        exact Or.inl (Or.inr (Or.inl (by simp [hsk])))⟩
    | none =>
    cases hh : errs.headerErr with
    | some e =>
      simp [addFile, hre, hc, hsk, hh] at h
      obtain ⟨h1, h2⟩ := h
      subst h1
      subst h2
      exact ⟨⟨[], by simp⟩, rfl, fun e2 he2 => by
        simp at he2
        subst he2
        exact Or.inl (Or.inr (Or.inr (by simp [hh])))⟩
    | none =>
    cases hp0 : env.writerPlan s.writeCount with
    | some e =>
      simp [addFile, writeRecord, hre, hc, hsk, hh, hp0] at h
      obtain ⟨h1, h2⟩ := h
      subst h1
      subst h2
      exact ⟨⟨[], by simp⟩, rfl, fun e2 he2 => by
        simp at he2
        subst he2
        exact Or.inr ⟨s.writeCount, hp0⟩⟩
    | none =>
    cases hp1 : env.writerPlan (s.writeCount + 1) with
    | some e =>
      simp [addFile, writeRecord, hre, hc, hsk, hh, hp0, hp1] at h
      obtain ⟨h1, h2⟩ := h
      subst h1
      subst h2
      exact ⟨⟨_, rfl⟩, hdir1b, fun e2 he2 => by
        simp at he2
        subst he2
        exact Or.inr ⟨s.writeCount + 1, hp1⟩⟩
    | none =>
    cases hp2 : env.writerPlan (s.writeCount + 1 + 1) with
    | some e =>
      simp [addFile, writeRecord, hre, hc, hsk, hh, hp0, hp1, hp2] at h
      obtain ⟨h1, h2⟩ := h
      subst h1
      subst h2
      exact ⟨⟨_, rfl⟩, hdir2, fun e2 he2 => by
        simp at he2
        subst he2
        exact Or.inr ⟨s.writeCount + 1 + 1, hp2⟩⟩
    | none =>
      simp [addFile, writeRecord, hre, hc, hsk, hh, hp0, hp1, hp2] at h
      obtain ⟨h1, h2⟩ := h
      subst h1
      exact ⟨⟨_, rfl⟩, hdir3, fun e2 he2 => by simp [← h2] at he2⟩

mutual
theorem addEntry_frame (env : Env) (s : ArchiveState) (p a : String)
    (n : FNode) (s' : ArchiveState) (r : Option Err)
    (h : addEntry env s p a n = (s', r)) :
    (∃ d, s'.records = s.records ++ d) ∧
    countDir s'.records = countDir s.records ∧
    (∀ e, r = some e → e ∈ entryErrs n ∨ ∃ j, env.writerPlan j = some e) := by
  cases n with
  | mk info errs content children =>
    cases ho : errs.openErr with
    | some e =>
      simp [addEntry, ho] at h
      obtain ⟨h1, h2⟩ := h
      subst h1
      subst h2
      exact ⟨⟨[], by simp⟩, rfl, fun e2 he2 => by
        simp at he2
        subst he2
        exact Or.inl (by simp [entryErrs, ho])⟩
    | none =>
      by_cases hd : (info.mode.isDir && !info.mode.isSymlink) = true
      · cases hl : errs.listErr with
        | some e =>
          simp [addEntry, ho, hd, hl] at h
          obtain ⟨h1, h2⟩ := h
          subst h1
          subst h2
          exact ⟨⟨[], by simp⟩, rfl, fun e2 he2 => by
            simp at he2
            subst he2
            exact Or.inl (by simp [entryErrs, hl])⟩
        | none =>
          have h2 : addList env s p a false children = (s', r) := by
            simpa [addEntry, ho, hd, hl] using h
          obtain ⟨hrec, hdir, hprov⟩ :=
            addList_frame env s p a false children s' r h2
          refine ⟨hrec, hdir, fun e2 he2 => ?_⟩
          rcases hprov e2 he2 with hin | hw
          · exact Or.inl (by simp [entryErrs, hin])
          · exact Or.inr hw
      · have h2 : addFile env s a info errs content = (s', r) := by
          simpa [addEntry, ho, hd] using h
        obtain ⟨hrec, hdir, hprov⟩ :=
          addFile_frame env s a info errs content s' r h2
        refine ⟨hrec, hdir, fun e2 he2 => ?_⟩
        rcases hprov e2 he2 with (hin | hin | hin) | hw
        · exact Or.inl (by simp [entryErrs, hin])
        · exact Or.inl (by simp [entryErrs, hin])
        · exact Or.inl (by simp [entryErrs, hin])
        · exact Or.inr hw

theorem addList_frame (env : Env) (s : ArchiveState) (p a : String)
    (b : Bool) (cs : FForest) (s' : ArchiveState) (r : Option Err)
    (h : addList env s p a b cs = (s', r)) :
    (∃ d, s'.records = s.records ++ d) ∧
    countDir s'.records = countDir s.records ∧
    (∀ e, r = some e → e ∈ forestErrs cs ∨ ∃ j, env.writerPlan j = some e) := by
  cases cs with
  | nil =>
    simp [addList] at h
    obtain ⟨h1, h2⟩ := h
    subst h1
    subst h2
    exact ⟨⟨[], by simp⟩, rfl, fun e2 he2 => by simp at he2⟩
  | cons c cs =>
    by_cases hskip : (b && c.info.name == backingStoreName) = true
    · have h2 : addList env s p a b cs = (s', r) := by
        simpa [addList, hskip] using h
      obtain ⟨hrec, hdir, hprov⟩ := addList_frame env s p a b cs s' r h2
      refine ⟨hrec, hdir, fun e2 he2 => ?_⟩
      rcases hprov e2 he2 with hin | hw
      · exact Or.inl (by simp [forestErrs, hin])
      · exact Or.inr hw
    · rcases he : addEntry env s (pjoin p c.info.name) (pjoin a c.info.name) c
        with ⟨s₁, e₁⟩
      obtain ⟨hrec1, hdir1, hprov1⟩ := addEntry_frame env s
        (pjoin p c.info.name) (pjoin a c.info.name) c s₁ e₁ he
      cases e₁ with
      | some e =>
        simp [addList, hskip, he] at h
        obtain ⟨h3, h4⟩ := h
        subst h3
        refine ⟨hrec1, hdir1, fun e2 he2 => ?_⟩
        rw [← h4] at he2
        rcases hprov1 e2 he2 with hin | hw
        · exact Or.inl (by simp [forestErrs, hin])
        · exact Or.inr hw
      | none =>
        have h2 : addList env s₁ p a b cs = (s', r) := by
          simpa [addList, hskip, he] using h
        obtain ⟨⟨d2, hrec2⟩, hdir2, hprov2⟩ :=
          addList_frame env s₁ p a b cs s' r h2
        obtain ⟨d1, hrec1e⟩ := hrec1
        refine ⟨⟨d1 ++ d2, by rw [hrec2, hrec1e, List.append_assoc]⟩,
          by rw [hdir2, hdir1], fun e2 he2 => ?_⟩
        rcases hprov2 e2 he2 with hin | hw
        · exact Or.inl (by simp [forestErrs, hin])
        · exact Or.inr hw
end

theorem addEntry_dir_branch (env : Env) (s : ArchiveState) (p a : String)
    (n : FNode) (ho : n.errs.openErr = none)
    (hd : (n.info.mode.isDir && !n.info.mode.isSymlink) = true) :
    addEntry env s p a n = addDir env s p a n false := by
  cases n with
  | mk info errs content children =>
    simp only [FNode.errs] at ho
    simp only [FNode.info] at hd
    simp [addEntry, addDir, FNode.errs, FNode.children, ho, hd]

theorem addEntry_file_branch (env : Env) (s : ArchiveState) (p a : String)
    (n : FNode) (ho : n.errs.openErr = none)
    (hd : (n.info.mode.isDir && !n.info.mode.isSymlink) = false) :
    addEntry env s p a n = addFile env s a n.info n.errs n.content := by
  cases n with
  | mk info errs content children =>
    simp only [FNode.errs] at ho
    simp only [FNode.info] at hd
    simp [addEntry, addFile, FNode.errs, FNode.info, FNode.content, ho, hd]

theorem addEntry_openErr (env : Env) (s : ArchiveState) (p a : String)
    (n : FNode) (e : Err) (ho : n.errs.openErr = some e) :
    addEntry env s p a n = (s, some e) := by
  cases n with
  | mk info errs content children =>
    simp only [FNode.errs] at ho
    simp [addEntry, ho]

theorem addList_root_eq (env : Env) (s : ArchiveState) (p a : String)
    (cs : FForest) :
    addList env s p a true cs = addList env s p a false (dropBacking cs) := by
  cases cs with
  | nil => simp [addList, dropBacking]
  | cons c cs =>
    by_cases hn : (c.info.name == backingStoreName) = true
    · have h1 : addList env s p a true (.cons c cs) =
          addList env s p a true cs := by
        simp [addList, hn]
      have h2 : dropBacking (.cons c cs) = dropBacking cs := by
        simp [dropBacking, hn]
      rw [h1, h2]
      exact addList_root_eq env s p a cs
    · have h2 : dropBacking (.cons c cs) = .cons c (dropBacking cs) := by
        simp [dropBacking, hn]
      rw [h2]
      rcases he : addEntry env s (pjoin p c.info.name) (pjoin a c.info.name) c
        with ⟨s₁, e₁⟩
      cases e₁ with
      | some e => simp [addList, hn, he]
      | none =>
        have h3 : addList env s p a true (.cons c cs) =
            addList env s₁ p a true cs := by
          simp [addList, hn, he]
        have h4 : addList env s p a false (.cons c (dropBacking cs)) =
            addList env s₁ p a false (dropBacking cs) := by
          simp [addList, hn, he]
        rw [h3, h4]
        exact addList_root_eq env s₁ p a cs

theorem addList_stops (env : Env) (s s₁ : ArchiveState) (p a : String)
    (b : Bool) (c : FNode) (cs : FForest) (e : Err)
    (hskip : (b && c.info.name == backingStoreName) = false)
    (he : addEntry env s (pjoin p c.info.name) (pjoin a c.info.name) c =
      (s₁, some e)) :
    addList env s p a b (.cons c cs) = (s₁, some e) := by
  simp [addList, hskip, he]

theorem replicate_dot_inj : ∀ (b₁ b₂ : Nat) (r₁ r₂ : List Char),
    List.replicate b₁ 'x' ++ '.' :: r₁ = List.replicate b₂ 'x' ++ '.' :: r₂ →
    b₁ = b₂ ∧ r₁ = r₂ := by
  intro b₁
  induction b₁ with
  | zero =>
    intro b₂ r₁ r₂ h
    cases b₂ with
    | zero => simpa using h
    | succ b₂ =>
      rw [List.replicate_succ] at h
      simp at h
  | succ b₁ ih =>
    intro b₂ r₁ r₂ h
    cases b₂ with
    | zero =>
      rw [List.replicate_succ] at h
      simp at h
    | succ b₂ =>
      rw [List.replicate_succ, List.replicate_succ] at h
      simp only [List.cons_append, List.cons.injEq] at h
      obtain ⟨h1, h2⟩ := ih b₂ r₁ r₂ h.2
      exact ⟨by omega, h2⟩

theorem encodeBytes_data (b : Nat) (bs : List Nat) :
    (encodeBytes (b :: bs)).data =
      List.replicate b 'x' ++ '.' :: (encodeBytes bs).data := by
  show (String.mk (List.replicate b 'x') ++ "." ++ encodeBytes bs).data = _
  rw [String.data_append, String.data_append]
  simp

theorem encodeBytes_inj : ∀ c₁ c₂ : List Nat,
    encodeBytes c₁ = encodeBytes c₂ → c₁ = c₂ := by
  intro c₁
  induction c₁ with
  | nil =>
    intro c₂ h
    cases c₂ with
    | nil => rfl
    | cons b₂ bs₂ =>
      have hd := congrArg String.data h
      rw [encodeBytes_data] at hd
      have hlen := congrArg List.length hd
      simp [encodeBytes] at hlen
      omega
  | cons b bs ih =>
    intro c₂ h
    cases c₂ with
    | nil =>
      have hd := congrArg String.data h
      rw [encodeBytes_data] at hd
      have hlen := congrArg List.length hd
      simp [encodeBytes] at hlen
    | cons b₂ bs₂ =>
      have hd := congrArg String.data h
      rw [encodeBytes_data, encodeBytes_data] at hd
      obtain ⟨h1, h2⟩ := replicate_dot_inj b b₂ _ _ hd
      have h3 := ih bs₂ (string_data_inj h2)
      rw [h1, h3]

theorem hashKey_inj (c₁ c₂ : List Nat) (h : hashKey c₁ = hashKey c₂) :
    c₁ = c₂ := by
  have hd := congrArg String.data h
  rw [hashKey, hashKey, String.data_append, String.data_append] at hd
  exact encodeBytes_inj c₁ c₂ (string_data_inj (List.append_cancel_left hd))

theorem count_map_hashKey (l : List (List Nat)) (c : List Nat) :
    (l.map hashKey).count (hashKey c) = l.count c := by
  induction l with
  | nil => simp
  | cons x l ih =>
    by_cases hx : x = c
    · subst hx
      simp [List.count_cons, ih]
    · have hne : hashKey x ≠ hashKey c := fun he => hx (hashKey_inj x c he)
      simp [List.count_cons, ih, hx, hne]

theorem mem_map_hashKey (l : List (List Nat)) (c : List Nat) :
    hashKey c ∈ l.map hashKey ↔ c ∈ l := by
  constructor
  · intro h
    obtain ⟨x, hx, he⟩ := List.mem_map.mp h
    exact (hashKey_inj x c he) ▸ hx
  · intro h
    exact List.mem_map.mpr ⟨c, h, rfl⟩

theorem addFile_mapping (env : Env) (s : ArchiveState) (a : String)
    (fi : FileInfo) (errs : ErrFlags) (content : List Nat) (s' : ArchiveState)
    (r : Option Err) (h : addFile env s a fi errs content = (s', r)) :
    s'.mapping = s.mapping ∨
    (hashKey content ∉ s.mapping ∧
      s'.mapping = hashKey content :: s.mapping ∧
      ∃ d, s'.records = s.records ++
        [.head (blobHeaderOf env fi (hashKey content)), .bytes content] ++ d) := by
  cases hre : errs.readErr with
  | some e =>
    simp [addFile, hre] at h
    exact Or.inl (by rw [← h.1])
  | none =>
  by_cases hc : hashKey content ∈ s.mapping
  · cases hh : errs.headerErr with
    | some e =>
      simp [addFile, hre, hc, hh] at h
      exact Or.inl (by rw [← h.1])
    | none =>
      cases hp0 : env.writerPlan s.writeCount with
      | some e =>
        simp [addFile, writeRecord, hre, hc, hh, hp0] at h
        exact Or.inl (by rw [← h.1])
      | none =>
        simp [addFile, writeRecord, hre, hc, hh, hp0] at h
        exact Or.inl (by rw [← h.1])
  · cases hsk : errs.seekErr with
    | some e =>
      simp [addFile, hre, hc, hsk] at h
      exact Or.inl (by rw [← h.1])
    | none =>
    cases hh : errs.headerErr with
    | some e =>
      simp [addFile, hre, hc, hsk, hh] at h
      exact Or.inl (by rw [← h.1])
    | none =>
    cases hp0 : env.writerPlan s.writeCount with
    | some e =>
      simp [addFile, writeRecord, hre, hc, hsk, hh, hp0] at h
      exact Or.inl (by rw [← h.1])
    | none =>
    cases hp1 : env.writerPlan (s.writeCount + 1) with
    | some e =>
      simp [addFile, writeRecord, hre, hc, hsk, hh, hp0, hp1] at h
      exact Or.inl (by rw [← h.1])
    | none =>
    cases hp2 : env.writerPlan (s.writeCount + 1 + 1) with
    | some e =>
      simp [addFile, writeRecord, hre, hc, hsk, hh, hp0, hp1, hp2] at h
      obtain ⟨h1, h2⟩ := h
      subst h1
      exact Or.inr ⟨hc, by simp, ⟨[], by simp⟩⟩
    | none =>
      simp [addFile, writeRecord, hre, hc, hsk, hh, hp0, hp1, hp2] at h
      obtain ⟨h1, h2⟩ := h
      subst h1
      exact Or.inr ⟨hc, by simp,
        ⟨[.head (linkHeaderOf env fi a (hashKey content))], by simp⟩⟩

theorem take_singleton_cases (m : Nat) (r : Record) :
    List.take m [r] = [] ∨ List.take m [r] = [r] := by
  cases m with
  | zero => exact Or.inl rfl
  | succ m => exact Or.inr (by simp)

theorem take_three_cases (m : Nat) (r₁ r₂ r₃ : Record) :
    List.take m [r₁, r₂, r₃] = [] ∨ List.take m [r₁, r₂, r₃] = [r₁] ∨
    List.take m [r₁, r₂, r₃] = [r₁, r₂] ∨
    List.take m [r₁, r₂, r₃] = [r₁, r₂, r₃] := by
  rcases m with _ | _ | _ | m <;> simp

theorem countBlob_two (env : Env) (fi : FileInfo) (content : List Nat)
    (k : String) :
    countBlob env
      [.head (blobHeaderOf env fi (hashKey content)), .bytes content] k =
      if hashKey content = k then 1 else 0 := by
  have e1 : ([.head (blobHeaderOf env fi (hashKey content)),
      .bytes content] : List Record) =
      [.head (blobHeaderOf env fi (hashKey content))] ++ [.bytes content] :=
    rfl
  rw [e1, countBlob_append,
    countBlob_blobHead env fi _ k (hashKey_ne_empty content), countBlob_bytes]
  simp

theorem countLink_two (env : Env) (fi : FileInfo) (content : List Nat)
    (k : String) :
    countLink env
      [.head (blobHeaderOf env fi (hashKey content)), .bytes content] k =
      0 := by
  have e1 : ([.head (blobHeaderOf env fi (hashKey content)),
      .bytes content] : List Record) =
      [.head (blobHeaderOf env fi (hashKey content))] ++ [.bytes content] :=
    rfl
  rw [e1, countLink_append, countLink_blobHead, countLink_bytes]

theorem blobBeforeLinks_take_all (env : Env) (recs : List Record)
    (h : blobBeforeLinks env recs) (k : String)
    (hl : 1 ≤ countLink env recs k) : 1 ≤ countBlob env recs k := by
  have h2 := h k recs.length
  rw [List.take_length] at h2
  exact h2 hl

theorem blobBeforeLinks_append_link (env : Env) (recs : List Record)
    (fi : FileInfo) (a : String) (content : List Nat)
    (h : blobBeforeLinks env recs)
    (hb : 1 ≤ countBlob env recs (hashKey content)) :
    blobBeforeLinks env
      (recs ++ [.head (linkHeaderOf env fi a (hashKey content))]) := by
  intro k n hl
  rw [List.take_append_eq_append_take] at hl ⊢
  by_cases hn : n ≤ recs.length
  · have h0 : n - recs.length = 0 := by omega
    rw [h0] at hl ⊢
    simp only [List.take_zero, List.append_nil] at hl ⊢
    exact h k n hl
  · have h1 : recs.length ≤ n := by omega
    rw [List.take_of_length_le h1] at hl ⊢
    rcases take_singleton_cases (n - recs.length)
        (.head (linkHeaderOf env fi a (hashKey content))) with ht | ht <;>
      rw [ht] at hl ⊢
    · simp only [List.append_nil] at hl ⊢
      exact blobBeforeLinks_take_all env recs h k hl
    · rw [countBlob_append, countBlob_linkHead]
      rw [countLink_append,
        countLink_linkHead env fi a _ k (hashKey_ne_empty content)] at hl
      by_cases hk : hashKey content = k
      · subst hk
        simpa using hb
      · rw [if_neg hk] at hl
        have h2 := blobBeforeLinks_take_all env recs h k (by simpa using hl)
        simpa using h2

theorem blobBeforeLinks_append_blob (env : Env) (recs : List Record)
    (fi : FileInfo) (a : String) (content : List Nat)
    (h : blobBeforeLinks env recs) :
    blobBeforeLinks env (recs ++
      [.head (blobHeaderOf env fi (hashKey content)), .bytes content,
        .head (linkHeaderOf env fi a (hashKey content))]) := by
  intro k n hl
  rw [List.take_append_eq_append_take] at hl ⊢
  by_cases hn : n ≤ recs.length
  · have h0 : n - recs.length = 0 := by omega
    rw [h0] at hl ⊢
    simp only [List.take_zero, List.append_nil] at hl ⊢
    exact h k n hl
  · have h1 : recs.length ≤ n := by omega
    rw [List.take_of_length_le h1] at hl ⊢
    rcases take_three_cases (n - recs.length)
        (.head (blobHeaderOf env fi (hashKey content))) (.bytes content)
        (.head (linkHeaderOf env fi a (hashKey content))) with
      ht | ht | ht | ht <;> rw [ht] at hl ⊢
    · simp only [List.append_nil] at hl ⊢
      exact blobBeforeLinks_take_all env recs h k hl
    · rw [countBlob_append,
        countBlob_blobHead env fi _ k (hashKey_ne_empty content)]
      rw [countLink_append, countLink_blobHead] at hl
      by_cases hk : hashKey content = k
      · rw [if_pos hk]
        omega
      · rw [if_neg hk]
        have h2 := blobBeforeLinks_take_all env recs h k (by simpa using hl)
        omega
    · rw [countBlob_append, countBlob_two]
      rw [countLink_append, countLink_two] at hl
      by_cases hk : hashKey content = k
      · rw [if_pos hk]
        omega
      · rw [if_neg hk]
        have h2 := blobBeforeLinks_take_all env recs h k (by simpa using hl)
        omega
    · rw [countBlob_append, countBlob_three]
      rw [countLink_append, countLink_three] at hl
      by_cases hk : hashKey content = k
      · rw [if_pos hk]
        omega
      · rw [if_neg hk]
        rw [if_neg hk] at hl
        have h2 := blobBeforeLinks_take_all env recs h k (by simpa using hl)
        omega

theorem addFile_invariant (env : Env) (s : ArchiveState) (a : String)
    (fi : FileInfo) (errs : ErrFlags) (content : List Nat)
    (s' : ArchiveState) (h : addFile env s a fi errs content = (s', none))
    (hm : mappingHasBlob env s) (ho : blobBeforeLinks env s.records) :
    mappingHasBlob env s' ∧ blobBeforeLinks env s'.records := by
  rcases addFile_ok env s a fi errs content s' h with
    ⟨hmem, hrec, hmap, _⟩ | ⟨hmem, hrec, hmap, _⟩
  · constructor
    · intro k hk
      rw [hmap] at hk
      rw [hrec, countBlob_append]
      have h2 := hm k hk
      omega
    · rw [hrec]
      exact blobBeforeLinks_append_link env s.records fi a content ho
        (hm _ hmem)
  · constructor
    · intro k hk
      rw [hmap] at hk
      rw [hrec, countBlob_append, countBlob_three]
      rcases List.mem_cons.mp hk with hk1 | hk2
      · rw [if_pos hk1.symm]
        omega
      · have h2 := hm k hk2
        split <;> omega
    · rw [hrec]
      exact blobBeforeLinks_append_blob env s.records fi a content ho

mutual
theorem addEntry_invariant (env : Env) (s : ArchiveState) (p a : String)
    (n : FNode) (s' : ArchiveState) (h : addEntry env s p a n = (s', none))
    (hm : mappingHasBlob env s) (ho : blobBeforeLinks env s.records) :
    mappingHasBlob env s' ∧ blobBeforeLinks env s'.records := by
  cases n with
  | mk info errs content children =>
    cases hoe : errs.openErr with
    | some e => simp [addEntry, hoe] at h
    | none =>
      by_cases hd : (info.mode.isDir && !info.mode.isSymlink) = true
      · cases hl : errs.listErr with
        | some e => simp [addEntry, hoe, hd, hl] at h
        | none =>
          have h2 : addList env s p a false children = (s', none) := by
            simpa [addEntry, hoe, hd, hl] using h
          exact addList_invariant env s p a false children s' h2 hm ho
      · have h2 : addFile env s a info errs content = (s', none) := by
          simpa [addEntry, hoe, hd] using h
        exact addFile_invariant env s a info errs content s' h2 hm ho

theorem addList_invariant (env : Env) (s : ArchiveState) (p a : String)
    (b : Bool) (cs : FForest) (s' : ArchiveState)
    (h : addList env s p a b cs = (s', none))
    (hm : mappingHasBlob env s) (ho : blobBeforeLinks env s.records) :
    mappingHasBlob env s' ∧ blobBeforeLinks env s'.records := by
  cases cs with
  | nil =>
    simp [addList] at h
    subst h
    exact ⟨hm, ho⟩
  | cons c cs =>
    by_cases hskip : (b && c.info.name == backingStoreName) = true
    · have h2 : addList env s p a b cs = (s', none) := by
        simpa [addList, hskip] using h
      exact addList_invariant env s p a b cs s' h2 hm ho
    · rcases he : addEntry env s (pjoin p c.info.name) (pjoin a c.info.name) c
        with ⟨s₁, e₁⟩
      cases e₁ with
      | some e => simp [addList, hskip, he] at h
      | none =>
        have h2 : addList env s₁ p a b cs = (s', none) := by
          simpa [addList, hskip, he] using h
        obtain ⟨hm₁, ho₁⟩ := addEntry_invariant env s (pjoin p c.info.name)
          (pjoin a c.info.name) c s₁ he hm ho
        exact addList_invariant env s₁ p a b cs s' h2 hm₁ ho₁
end


theorem exists_hashKey_iff (l : List (List Nat)) (c : List Nat) :
    (∃ a ∈ l, hashKey a = hashKey c) ↔ c ∈ l := by
  constructor
  · rintro ⟨a, ha, he⟩
    exact (hashKey_inj a c he) ▸ ha
  · intro h
    exact ⟨c, h, rfl⟩

/-- C1: on a successful run over the source root from the initial state,
every distinct content hash encountered has exactly one stored-blob record,
written the first time the hash is seen, and every file occurrence produces
exactly one link record: for every hash key the stored-blob count is 1 when
the key is the hash of some processed content and 0 otherwise; for every
content c the stored-blob count of hash(c) is 1 exactly when c occurs and
the link count of hash(c) equals the number N of occurrences of c (so N
byte-identical files, N ≥ 1, in any traversal order, give exactly 1
stored-blob record and exactly N link records); every processed file entry
appends the stored-blob header, its body and then the link record exactly
when its hash key is absent from the dedup table, and only the link record
when it is present; the final dedup table holds exactly the hash keys seen,
so the blob-emitting branch is taken precisely at the first occurrence of a
hash; and the stream is first-occurrence ordered — in every prefix of the
output, a link record for a key appears only after that key's stored-blob
record. -/
theorem c1_dedup_invariant (env : Env) (p a : String) (t : FNode)
    (s : ArchiveState) (h : addDir env initState p a t true = (s, none)) :
    (∀ k, countBlob env s.records k =
        if k ∈ (forestContents true t.children).map hashKey then 1 else 0) ∧
    (∀ c, countBlob env s.records (hashKey c) =
        if c ∈ forestContents true t.children then 1 else 0) ∧
    (∀ c, countLink env s.records (hashKey c) =
        (forestContents true t.children).count c) ∧
    (∀ env2 s2 a2 fi errs content s2',
        addFile env2 s2 a2 fi errs content = (s2', none) →
        (hashKey content ∈ s2.mapping →
          s2'.records = s2.records ++
            [.head (linkHeaderOf env2 fi a2 (hashKey content))]) ∧
        (hashKey content ∉ s2.mapping →
          s2'.records = s2.records ++
            [.head (blobHeaderOf env2 fi (hashKey content)), .bytes content,
              .head (linkHeaderOf env2 fi a2 (hashKey content))])) ∧
    (∀ k, k ∈ s.mapping ↔
        k ∈ (forestContents true t.children).map hashKey) ∧
    blobBeforeLinks env s.records := by
  cases hl : t.errs.listErr with
  | some e => simp [addDir, hl] at h
  | none =>
    have h2 : addList env initState p a true t.children = (s, none) := by
      simpa [addDir, hl] using h
    obtain ⟨_, hmap, hblob, hlink, _⟩ := addList_runSpec env initState p a
      true t.children s h2
    refine ⟨?_, ?_, ?_, ?_, ?_, ?_⟩
    · intro k
      have hb := hblob k
      simpa [initState, countBlob] using hb
    · intro c
      have hb := hblob (hashKey c)
      simpa [initState, countBlob, exists_hashKey_iff] using hb
    · intro c
      have hk := hlink (hashKey c)
      simpa [initState, countLink, count_map_hashKey] using hk
    · intro env2 s2 a2 fi errs content s2' hf
      rcases addFile_ok env2 s2 a2 fi errs content s2' hf with
        ⟨hmem, hrec, _, _⟩ | ⟨hmem, hrec, _, _⟩
      · exact ⟨fun _ => hrec, fun hn => absurd hmem hn⟩
      · exact ⟨fun hin => absurd hin hmem, fun _ => hrec⟩
    · intro k
      have hmk := hmap k
      simpa [initState] using hmk
    · have hinv := addList_invariant env initState p a true t.children s h2
        (by intro k hk; simp [initState] at hk)
        (by intro k n hcontr; simp [initState, countLink] at hcontr)
      exact hinv.2

/-- Witness for C1: two byte-identical files in one run give one stored-blob
record and two link records for their shared hash. -/
theorem c1_dedup_invariant_witness :
    countBlob envW
      (addDir envW initState "p" "root"
        (dirW "root" (.cons (fileW "a" [1]) (.cons (fileW "b" [1]) .nil)))
        true).1.records (hashKey [1]) = 1 ∧
    countLink envW
      (addDir envW initState "p" "root"
        (dirW "root" (.cons (fileW "a" [1]) (.cons (fileW "b" [1]) .nil)))
        true).1.records (hashKey [1]) = 2 := by
  have h : addDir envW initState "p" "root"
      (dirW "root" (.cons (fileW "a" [1]) (.cons (fileW "b" [1]) .nil)))
      true =
      ((addDir envW initState "p" "root"
        (dirW "root" (.cons (fileW "a" [1]) (.cons (fileW "b" [1]) .nil)))
        true).1, none) := by decide
  have hc := c1_dedup_invariant envW "p" "root"
    (dirW "root" (.cons (fileW "a" [1]) (.cons (fileW "b" [1]) .nil))) _ h
  constructor
  · rw [hc.2.1 [1]]
    decide
  · rw [hc.2.2.1 [1]]
    decide

/-- C2: the hash key of a file entry is a function of the content bytes
alone — the metadata, logical path and surrounding state do not enter it —
and the stored-blob path is rootArchivePath / backing-store name / hash key:
every successful file-branch run appends a link record whose target is
exactly that path for the entry's content; consequently two successful runs
(same rootArchivePath) over trees that hold the same content sequence
produce identical link-target sequences and identical dedup-table key sets
— the same multiset of hash keys. -/
theorem c2_content_addressing :
    (∀ env s a fi errs content s',
        addFile env s a fi errs content = (s', none) →
        linkTargets s'.records = linkTargets s.records ++
          [backingFileArchivePath env (hashKey content)] ∧
        backingFileArchivePath env (hashKey content) =
          pjoin (pjoin env.rootArchivePath backingStoreName)
            (hashKey content)) ∧
    (∀ env p₁ a₁ t₁ s₁ p₂ a₂ t₂ s₂,
        addDir env initState p₁ a₁ t₁ true = (s₁, none) →
        addDir env initState p₂ a₂ t₂ true = (s₂, none) →
        forestContents true t₁.children = forestContents true t₂.children →
        linkTargets s₁.records = linkTargets s₂.records ∧
        ∀ k, (k ∈ s₁.mapping ↔ k ∈ s₂.mapping)) := by
  constructor
  · intro env s a fi errs content s' h
    obtain ⟨_, _, _, _, ht⟩ := addFile_runSpec env s a fi errs content s' h
    refine ⟨?_, rfl⟩
    simpa using ht
  · intro env p₁ a₁ t₁ s₁ p₂ a₂ t₂ s₂ h₁ h₂ hc
    have g₁ : addList env initState p₁ a₁ true t₁.children = (s₁, none) := by
      cases hl : t₁.errs.listErr with
      | some e => simp [addDir, hl] at h₁
      | none => simpa [addDir, hl] using h₁
    have g₂ : addList env initState p₂ a₂ true t₂.children = (s₂, none) := by
      cases hl : t₂.errs.listErr with
      | some e => simp [addDir, hl] at h₂
      | none => simpa [addDir, hl] using h₂
    obtain ⟨_, hm₁, _, _, ht₁⟩ := addList_runSpec env initState p₁ a₁ true
      t₁.children s₁ g₁
    obtain ⟨_, hm₂, _, _, ht₂⟩ := addList_runSpec env initState p₂ a₂ true
      t₂.children s₂ g₂
    constructor
    · rw [ht₁, ht₂, hc]
    · intro k
      rw [hm₁ k, hm₂ k, hc]

/-- Witness for C2: two runs over trees carrying the same content under
different file names and paths produce the same link-target sequence. -/
theorem c2_content_addressing_witness :
    linkTargets (addDir envW initState "p" "root"
        (dirW "root" (.cons (fileW "a" [2]) .nil)) true).1.records =
      linkTargets (addDir envW initState "q" "root"
        (dirW "root" (.cons (fileW "zz" [2]) .nil)) true).1.records :=
  ((c2_content_addressing).2 envW "p" "root"
    (dirW "root" (.cons (fileW "a" [2]) .nil))
    (addDir envW initState "p" "root"
      (dirW "root" (.cons (fileW "a" [2]) .nil)) true).1
    "q" "root" (dirW "root" (.cons (fileW "zz" [2]) .nil))
    (addDir envW initState "q" "root"
      (dirW "root" (.cons (fileW "zz" [2]) .nil)) true).1
    (by decide) (by decide) (by decide)).1

/-- C3: once the entry is open, addEntry treats it as a directory — plain
delegation to the directory walk with isRoot false and nothing else — if and
only if its mode has the directory bit set and the symbolic-link bit clear;
every other entry, in particular a symbolic link whose mode also carries the
directory bit, goes to the file-handling branch. -/
theorem c3_directory_branch (env : Env) (s : ArchiveState) (p a : String)
    (n : FNode) (ho : n.errs.openErr = none) :
    ((n.info.mode.isDir && !n.info.mode.isSymlink) = true →
        addEntry env s p a n = addDir env s p a n false) ∧
    ((n.info.mode.isDir && !n.info.mode.isSymlink) = false →
        addEntry env s p a n = addFile env s a n.info n.errs n.content) ∧
    (n.info.mode.isDir = true → n.info.mode.isSymlink = true →
        addEntry env s p a n = addFile env s a n.info n.errs n.content) := by
  refine ⟨fun hd => addEntry_dir_branch env s p a n ho hd,
    fun hd => addEntry_file_branch env s p a n ho hd,
    fun h1 h2 => addEntry_file_branch env s p a n ho (by simp [h1, h2])⟩

/-- Witness for C3: a symbolic link whose mode reports a directory target is
routed to the file branch, not recursed into. -/
theorem c3_directory_branch_witness :
    addEntry envW initState "p" "root/sl"
        (.mk { name := "sl"
               mode := { isDir := true, isSymlink := true, perm := 511 }
               size := 2
               modTime := 0 } noErr [5] .nil) =
      addFile envW initState "root/sl"
        (FNode.mk { name := "sl"
                    mode := { isDir := true, isSymlink := true, perm := 511 }
                    size := 2
                    modTime := 0 } noErr [5] .nil).info
        (FNode.mk { name := "sl"
                    mode := { isDir := true, isSymlink := true, perm := 511 }
                    size := 2
                    modTime := 0 } noErr [5] .nil).errs
        (FNode.mk { name := "sl"
                    mode := { isDir := true, isSymlink := true, perm := 511 }
                    size := 2
                    modTime := 0 } noErr [5] .nil).content :=
  (c3_directory_branch envW initState "p" "root/sl"
    (.mk { name := "sl"
           mode := { isDir := true, isSymlink := true, perm := 511 }
           size := 2
           modTime := 0 } noErr [5] .nil) rfl).2.2 rfl rfl

/-- C4: every successful file-branch run ends by writing the link record,
whether or not a stored-blob record was written before it, and that link
header carries the logical archive path as its name, the hard-link type
flag, the stored-blob path as its link target, and size zero. -/
theorem c4_link_record (env : Env) (s : ArchiveState) (a : String)
    (fi : FileInfo) (errs : ErrFlags) (content : List Nat) (s' : ArchiveState)
    (h : addFile env s a fi errs content = (s', none)) :
    (∃ d, s'.records =
        s.records ++ d ++ [.head (linkHeaderOf env fi a (hashKey content))]) ∧
    (linkHeaderOf env fi a (hashKey content)).name = a ∧
    (linkHeaderOf env fi a (hashKey content)).typeflag = .link ∧
    (linkHeaderOf env fi a (hashKey content)).linkname =
      backingFileArchivePath env (hashKey content) ∧
    (linkHeaderOf env fi a (hashKey content)).size = 0 := by
  rcases addFile_ok env s a fi errs content s' h with
    ⟨_, hrec, _, _⟩ | ⟨_, hrec, _, _⟩
  · exact ⟨⟨[], by simpa using hrec⟩, rfl, rfl, rfl, rfl⟩
  · exact ⟨⟨[.head (blobHeaderOf env fi (hashKey content)), .bytes content],
      by simpa using hrec⟩, rfl, rfl, rfl, rfl⟩

/-- Witness for C4: a concrete file run ends with its link record, whose
size is zero and whose target is the stored-blob path. -/
theorem c4_link_record_witness :
    (∃ d, (addFile envW initState "root/a" (infoW "a" 1) noErr [3]).1.records =
        initState.records ++ d ++
          [.head (linkHeaderOf envW (infoW "a" 1) "root/a" (hashKey [3]))]) ∧
    (linkHeaderOf envW (infoW "a" 1) "root/a" (hashKey [3])).size = 0 := by
  have h := c4_link_record envW initState "root/a" (infoW "a" 1) noErr [3]
    (addFile envW initState "root/a" (infoW "a" 1) noErr [3]).1 (by decide)
  exact ⟨h.1, h.2.2.2.2⟩

/-- C5: with isRoot true the entry loop behaves exactly as the isRoot-false
loop run on the listing with every entry named like the reserved
backing-store directory removed — such entries are dropped before any
processing — while dropping removes exactly the backing-store-named entries;
and with isRoot false every entry, however named, is dispatched to addEntry
and the loop continues from its result. -/
theorem c5_root_skip (env : Env) (s : ArchiveState) (p a : String)
    (cs : FForest) :
    addList env s p a true cs = addList env s p a false (dropBacking cs) ∧
    (∀ c : FNode, c.info.name = backingStoreName →
        dropBacking (.cons c cs) = dropBacking cs) ∧
    (∀ c : FNode, c.info.name ≠ backingStoreName →
        dropBacking (.cons c cs) = .cons c (dropBacking cs)) ∧
    (∀ c : FNode, ∀ s₁ e₁,
        addEntry env s (pjoin p c.info.name) (pjoin a c.info.name) c =
          (s₁, e₁) →
        addList env s p a false (.cons c cs) =
          match e₁ with
          | some e => (s₁, some e)
          | none => addList env s₁ p a false cs) := by
  refine ⟨addList_root_eq env s p a cs, ?_, ?_, ?_⟩
  · intro c hc
    simp [dropBacking, hc]
  · intro c hc
    simp [dropBacking, hc]
  · intro c s₁ e₁ he
    cases e₁ with
    | some e => simp [addList, he]
    | none => simp [addList, he]

/-- Witness for C5: at root level an entry named ".backing_store" is skipped
entirely; below root it is dispatched. -/
theorem c5_root_skip_witness :
    addList envW initState "p" "root" true
        (.cons (fileW ".backing_store" [9]) .nil) =
      addList envW initState "p" "root" false
        (dropBacking (.cons (fileW ".backing_store" [9]) .nil)) ∧
    dropBacking (.cons (fileW ".backing_store" [9]) .nil) =
      dropBacking .nil :=
  ⟨(c5_root_skip envW initState "p" "root"
      (.cons (fileW ".backing_store" [9]) .nil)).1,
   (c5_root_skip envW initState "p" "root" .nil).2.1
      (fileW ".backing_store" [9]) rfl⟩

/-- Counterexample to C6: walking a root that contains one empty
subdirectory succeeds and writes nothing at all — the output holds no
directory record for the walked (empty) directory, contradicting the claim
that walking a directory contributes a directory record to the archive. -/
theorem c6_counterexample :
    addDir envW initState "/src/root" "root"
        (dirW "root" (.cons (dirW "empty" .nil) .nil)) true =
      (initState, none) ∧
    countDir initState.records = 0 := by
  constructor
  · decide
  · decide

/-- C6 as amended: the traversal never contributes a directory record — at
every outcome of addDir the number of directory-typed headers in the stream
is unchanged, so the archive holds only stored-blob records, their bodies
and link records — and walking an empty directory appends no record at
all. -/
theorem c6_no_directory_records :
    (∀ env s p a (n : FNode) b s' r, addDir env s p a n b = (s', r) →
        countDir s'.records = countDir s.records) ∧
    (∀ env s p a (n : FNode) b, n.errs.listErr = none →
        n.children = .nil → addDir env s p a n b = (s, none)) := by
  constructor
  · intro env s p a n b s' r h
    cases hl : n.errs.listErr with
    | some e =>
      simp [addDir, hl] at h
      rw [← h.1]
    | none =>
      have h2 : addList env s p a b n.children = (s', r) := by
        simpa [addDir, hl] using h
      exact (addList_frame env s p a b n.children s' r h2).2.1
  · intro env s p a n b hl hc
    simp [addDir, hl, hc, addList]

/-- Witness for C6 as amended: a concrete run over a tree with a file and a
subdirectory leaves the directory-record count at zero. -/
theorem c6_no_directory_records_witness :
    countDir (addDir envW initState "p" "root"
        (dirW "root" (.cons (fileW "a" [1])
          (.cons (dirW "d" (.cons (fileW "b" [2]) .nil)) .nil))) true).1.records =
      countDir initState.records :=
  (c6_no_directory_records).1 envW initState "p" "root"
    (dirW "root" (.cons (fileW "a" [1])
      (.cons (dirW "d" (.cons (fileW "b" [2]) .nil)) .nil))) true
    (addDir envW initState "p" "root"
      (dirW "root" (.cons (fileW "a" [1])
        (.cons (dirW "d" (.cons (fileW "b" [2]) .nil)) .nil))) true).1
    (addDir envW initState "p" "root"
      (dirW "root" (.cons (fileW "a" [1])
        (.cons (dirW "d" (.cons (fileW "b" [2]) .nil)) .nil))) true).2
    rfl

/-- C7: every failure aborts the run and is propagated unchanged — records
already written are never removed (every outcome only appends), a returned
error is one of the errors actually raised by an OS call in the tree or by
the output stream, the entry loop returns the first failing entry's error
at once so the remaining entries are untouched, and a failing directory
listing aborts addDir with that very error and no records. -/
theorem c7_error_propagation :
    (∀ env s p a (n : FNode) s' r, addEntry env s p a n = (s', r) →
        ∃ d, s'.records = s.records ++ d) ∧
    (∀ env s p a (n : FNode) s' e, addEntry env s p a n = (s', some e) →
        e ∈ entryErrs n ∨ ∃ j, env.writerPlan j = some e) ∧
    (∀ env s s₁ p a b (c : FNode) cs e,
        (b && c.info.name == backingStoreName) = false →
        addEntry env s (pjoin p c.info.name) (pjoin a c.info.name) c =
          (s₁, some e) →
        addList env s p a b (.cons c cs) = (s₁, some e)) ∧
    (∀ env s p a (n : FNode) b e, n.errs.listErr = some e →
        addDir env s p a n b = (s, some e)) := by
  refine ⟨?_, ?_, ?_, ?_⟩
  · intro env s p a n s' r h
    exact (addEntry_frame env s p a n s' r h).1
  · intro env s p a n s' e h
    exact (addEntry_frame env s p a n s' (some e) h).2.2 e rfl
  · intro env s s₁ p a b c cs e hskip he
    exact addList_stops env s s₁ p a b c cs e hskip he
  · intro env s p a n b e hl
    simp [addDir, hl]

/-- Witness for C7: an entry whose open fails makes the loop return exactly
that error with nothing written, leaving later entries unprocessed. -/
theorem c7_error_propagation_witness :
    addList envW initState "p" "root" false
        (.cons (.mk (infoW "bad" 1)
          { openErr := some errW, listErr := none, readErr := none,
            seekErr := none, headerErr := none } [1] .nil)
          (.cons (fileW "later" [2]) .nil)) =
      (initState, some errW) :=
  (c7_error_propagation).2.2.1 envW initState initState "p" "root" false
    (.mk (infoW "bad" 1)
      { openErr := some errW, listErr := none, readErr := none,
        seekErr := none, headerErr := none } [1] .nil)
    (.cons (fileW "later" [2]) .nil) errW (by decide) (by decide)

/-- C8: main exits 0 when everything succeeds; prints the usage line and
exits 2 when the positional argument count is not exactly one; and on any
internal failure — resolving the argument, opening the root, traversal, or
closing the archive or the output stream — it exits with the non-zero code
-1 together with exactly one human-readable message on the error stream,
stated here positively for each of the five failure points. -/
theorem c8_exit_codes (inp : MainInput) :
    (inp.nargs ≠ 1 →
        mainRun inp =
          { exitCode := 2, errStream := [usageMessage], records := [] }) ∧
    (inp.nargs = 1 →
        (mainRun inp).exitCode = 0 ∨
        ((mainRun inp).exitCode = -1 ∧
          ∃ e, (mainRun inp).errStream = [errorMessage e])) ∧
    (∀ s, inp.nargs = 1 → inp.absErr = none →
        inp.root.errs.openErr = none →
        addDir { rootArchivePath := inp.rootName, writerPlan := inp.writerPlan }
          initState inp.rootPath inp.rootName inp.root true = (s, none) →
        inp.closeErr = none → inp.outputCloseErr = none →
        mainRun inp =
          { exitCode := 0, errStream := [], records := s.records }) ∧
    (∀ e, inp.nargs = 1 → inp.absErr = some e →
        mainRun inp =
          { exitCode := -1, errStream := [errorMessage e], records := [] }) ∧
    (∀ e, inp.nargs = 1 → inp.absErr = none →
        inp.root.errs.openErr = some e →
        mainRun inp =
          { exitCode := -1, errStream := [errorMessage e], records := [] }) ∧
    (∀ s e, inp.nargs = 1 → inp.absErr = none →
        inp.root.errs.openErr = none →
        addDir { rootArchivePath := inp.rootName, writerPlan := inp.writerPlan }
          initState inp.rootPath inp.rootName inp.root true = (s, some e) →
        mainRun inp =
          { exitCode := -1, errStream := [errorMessage e],
            records := s.records }) ∧
    (∀ s e, inp.nargs = 1 → inp.absErr = none →
        inp.root.errs.openErr = none →
        addDir { rootArchivePath := inp.rootName, writerPlan := inp.writerPlan }
          initState inp.rootPath inp.rootName inp.root true = (s, none) →
        inp.closeErr = some e →
        mainRun inp =
          { exitCode := -1, errStream := [errorMessage e],
            records := s.records }) ∧
    (∀ s e, inp.nargs = 1 → inp.absErr = none →
        inp.root.errs.openErr = none →
        addDir { rootArchivePath := inp.rootName, writerPlan := inp.writerPlan }
          initState inp.rootPath inp.rootName inp.root true = (s, none) →
        inp.closeErr = none → inp.outputCloseErr = some e →
        mainRun inp =
          { exitCode := -1, errStream := [errorMessage e],
            records := s.records }) := by
  refine ⟨?_, ?_, ?_, ?_, ?_, ?_, ?_, ?_⟩
  · intro h1
    simp [mainRun, h1]
  · intro h1
    cases ha : inp.absErr with
    | some e =>
      exact Or.inr ⟨by simp [mainRun, h1, ha], e, by simp [mainRun, h1, ha]⟩
    | none =>
    cases ho : inp.root.errs.openErr with
    | some e =>
      exact Or.inr ⟨by simp [mainRun, h1, ha, ho], e,
        by simp [mainRun, h1, ha, ho]⟩
    | none =>
    rcases hr : addDir { rootArchivePath := inp.rootName, writerPlan := inp.writerPlan }
        initState inp.rootPath inp.rootName inp.root true with ⟨s0, r0⟩
    cases r0 with
    | some e =>
      exact Or.inr ⟨by simp [mainRun, h1, ha, ho, hr], e,
        by simp [mainRun, h1, ha, ho, hr]⟩
    | none =>
    cases hc : inp.closeErr with
    | some e =>
      exact Or.inr ⟨by simp [mainRun, h1, ha, ho, hr, hc], e,
        by simp [mainRun, h1, ha, ho, hr, hc]⟩
    | none =>
    cases hoc : inp.outputCloseErr with
    | some e =>
      exact Or.inr ⟨by simp [mainRun, h1, ha, ho, hr, hc, hoc], e,
        by simp [mainRun, h1, ha, ho, hr, hc, hoc]⟩
    | none => exact Or.inl (by simp [mainRun, h1, ha, ho, hr, hc, hoc])
  · intro s h1 ha ho hr hc hoc
    simp [mainRun, h1, ha, ho, hr, hc, hoc]
  · intro e h1 ha
    simp [mainRun, h1, ha]
  · intro e h1 ha ho
    simp [mainRun, h1, ha, ho]
  · intro s e h1 ha ho hr
    simp [mainRun, h1, ha, ho, hr]
  · intro s e h1 ha ho hr hc
    simp [mainRun, h1, ha, ho, hr, hc]
  · intro s e h1 ha ho hr hc hoc
    simp [mainRun, h1, ha, ho, hr, hc, hoc]

/-- Witness for C8: a concrete failure-free invocation exits 0 with an empty
error stream, the same invocation with two positional arguments prints the
usage line and exits 2, and with a root whose open fails it exits -1 with
the error message. -/
theorem c8_exit_codes_witness :
    mainRun (inpW 1) =
      { exitCode := 0, errStream := [],
        records := (addDir envW initState "p" "root"
          (dirW "root" (.cons (fileW "a" [1]) .nil)) true).1.records } ∧
    mainRun (inpW 2) =
      { exitCode := 2, errStream := [usageMessage], records := [] } ∧
    mainRun { inpW 1 with root := badRootW } =
      { exitCode := -1, errStream := [errorMessage errW], records := [] } :=
  ⟨(c8_exit_codes (inpW 1)).2.2.1
      (addDir envW initState "p" "root"
        (dirW "root" (.cons (fileW "a" [1]) .nil)) true).1
      rfl rfl rfl (by decide) rfl rfl,
   (c8_exit_codes (inpW 2)).1 (by decide),
   (c8_exit_codes { inpW 1 with root := badRootW }).2.2.2.2.1 errW rfl rfl
     rfl⟩

/-- C9: the dedup table is mutated only after the stored-blob header and the
full content bytes have been written: when the file branch fails, either the
table is unchanged, or — only when the failure hit the final link write —
the table gained the key and the complete blob (header plus body) is already
in the stream; any key that enters the table comes with its complete blob
appended; and a failing seek, header construction, or header write in the
first-occurrence branch returns that error with the state, table included,
untouched. -/
theorem c9_table_mutation (env : Env) (s : ArchiveState) (a : String)
    (fi : FileInfo) (errs : ErrFlags) (content : List Nat) (s' : ArchiveState)
    (r : Option Err) (h : addFile env s a fi errs content = (s', r)) :
    (∀ e, r = some e →
        s'.mapping = s.mapping ∨
        (s'.mapping = hashKey content :: s.mapping ∧
          ∃ d, s'.records = s.records ++
            [.head (blobHeaderOf env fi (hashKey content)), .bytes content]
              ++ d)) ∧
    (∀ k, k ∈ s'.mapping → k ∉ s.mapping →
        k = hashKey content ∧
        ∃ d, s'.records = s.records ++
          [.head (blobHeaderOf env fi (hashKey content)), .bytes content]
            ++ d) ∧
    (errs.readErr = none → hashKey content ∉ s.mapping →
      ∀ e, errs.seekErr = some e →
        addFile env s a fi errs content = (s, some e)) ∧
    (errs.readErr = none → hashKey content ∉ s.mapping →
      errs.seekErr = none → ∀ e, errs.headerErr = some e →
        addFile env s a fi errs content = (s, some e)) ∧
    (errs.readErr = none → hashKey content ∉ s.mapping →
      errs.seekErr = none → errs.headerErr = none →
      ∀ e, env.writerPlan s.writeCount = some e →
        addFile env s a fi errs content = (s, some e)) := by
  have hm := addFile_mapping env s a fi errs content s' r h
  refine ⟨?_, ?_, ?_, ?_, ?_⟩
  · intro e _
    rcases hm with h1 | ⟨_, h2, h3⟩
    · exact Or.inl h1
    · exact Or.inr ⟨h2, h3⟩
  · intro k hk hnk
    rcases hm with h1 | ⟨_, h2, h3⟩
    · exact absurd (h1 ▸ hk) hnk
    · rw [h2] at hk
      rcases List.mem_cons.mp hk with hk1 | hk2
      · exact ⟨hk1, h3⟩
      · exact absurd hk2 hnk
  · intro hre hc e hsk
    simp [addFile, hre, hc, hsk]
  · intro hre hc hsk e hh
    simp [addFile, hre, hc, hsk, hh]
  · intro hre hc hsk hh e hp
    simp [addFile, writeRecord, hre, hc, hsk, hh, hp]

/-- Witness for C9: a failing seek on a first occurrence returns the error
with the state, dedup table included, unchanged. -/
theorem c9_table_mutation_witness :
    addFile envW initState "root/a" (infoW "a" 1)
        { openErr := none, listErr := none, readErr := none,
          seekErr := some errW, headerErr := none } [1] =
      (initState, some errW) :=
  (c9_table_mutation envW initState "root/a" (infoW "a" 1)
    { openErr := none, listErr := none, readErr := none,
      seekErr := some errW, headerErr := none } [1] initState (some errW)
    (by decide)).2.2.1 rfl (by decide) errW rfl

/-- C10: every zero-length file hashes to the single empty-content key, so a
successful run over a tree with N ≥ 1 empty files stores the empty blob at
most once — exactly once when an empty file occurs, with a body of zero
content bytes — and emits exactly N link records resolving to that one
stored-blob path. -/
theorem c10_empty_files (env : Env) (p a : String) (t : FNode)
    (s : ArchiveState) (h : addDir env initState p a t true = (s, none)) :
    countBlob env s.records (hashKey []) =
      (if [] ∈ forestContents true t.children then 1 else 0) ∧
    countLink env s.records (hashKey []) =
      (forestContents true t.children).count [] ∧
    (∀ env2 s2 a2 fi errs s2',
        addFile env2 s2 a2 fi errs [] = (s2', none) →
        hashKey [] ∉ s2.mapping →
        s2'.records = s2.records ++
          [.head (blobHeaderOf env2 fi (hashKey [])), .bytes [],
            .head (linkHeaderOf env2 fi a2 (hashKey []))]) := by
  cases hl : t.errs.listErr with
  | some e => simp [addDir, hl] at h
  | none =>
    have h2 : addList env initState p a true t.children = (s, none) := by
      simpa [addDir, hl] using h
    obtain ⟨_, _, hblob, hlink, _⟩ := addList_runSpec env initState p a
      true t.children s h2
    refine ⟨?_, ?_, ?_⟩
    · have hb := hblob (hashKey [])
      simpa [initState, countBlob, exists_hashKey_iff] using hb
    · have hk := hlink (hashKey [])
      simpa [initState, countLink, count_map_hashKey] using hk
    · intro env2 s2 a2 fi errs s2' hf hnm
      rcases addFile_ok env2 s2 a2 fi errs [] s2' hf with
        ⟨hmem, _, _, _⟩ | ⟨_, hrec, _, _⟩
      · exact absurd hmem hnm
      · exact hrec

/-- Witness for C10: a run over two empty files and one nonempty file gives
one stored-blob record and two link records for the empty-content hash. -/
theorem c10_empty_files_witness :
    countBlob envW
      (addDir envW initState "p" "root"
        (dirW "root" (.cons (fileW "a" []) (.cons (fileW "b" [])
          (.cons (fileW "c" [3]) .nil)))) true).1.records (hashKey []) = 1 ∧
    countLink envW
      (addDir envW initState "p" "root"
        (dirW "root" (.cons (fileW "a" []) (.cons (fileW "b" [])
          (.cons (fileW "c" [3]) .nil)))) true).1.records (hashKey []) = 2 := by
  have h : addDir envW initState "p" "root"
      (dirW "root" (.cons (fileW "a" []) (.cons (fileW "b" [])
        (.cons (fileW "c" [3]) .nil)))) true =
      ((addDir envW initState "p" "root"
        (dirW "root" (.cons (fileW "a" []) (.cons (fileW "b" [])
          (.cons (fileW "c" [3]) .nil)))) true).1, none) := by decide
  have hc := c10_empty_files envW "p" "root"
    (dirW "root" (.cons (fileW "a" []) (.cons (fileW "b" [])
      (.cons (fileW "c" [3]) .nil)))) _ h
  constructor
  · rw [hc.1]
    decide
  · rw [hc.2.1]
    decide
